import Mathlib

/-!
Verification development for the Fluid sidecar host-path allocator and the
sidecar host-path cleanup script (`clean-sidecar-hostpath.sh`).

The cleanup script is a bash program; the embedding below translates its
string manipulation (parameter expansion, `IFS='/' read -ra` field
splitting, `[[ =~ ]]` regular-expression tests) and its sweep logic
(`main_cleanup`, `cleanup_parent_dir`, `safe_remove_dir`, `is_mounted`,
`validate_path_format`, `get_dir_age_days`) into pure Lean functions over
an in-memory model of the directory tree it operates on.  Entry names are
assumed newline-free (a `read` line boundary never fires inside a path),
which is the regime every claim quantifies over.

Empirically validated bash facts baked into the embedding (checked against
bash 5.2, the interpreter the script runs under):
* `IFS='/' read -ra PARTS <<< s` splits `s` on every `/`, keeping interior
  empty fields and a leading empty field, and drops exactly one trailing
  empty field (so `"a/b/"` gives 2 fields, `"a//"` gives `a` and `""`,
  `""` gives 0 fields).
* `${path#${base}/}` removes the literal leading `base/` when present and
  otherwise leaves `path` unchanged; it performs no containment check.
* `set -e` is cleared inside command-substitution subshells, so the
  `((count++))` post-increments inside `cleanup_parent_dir` (always invoked
  as `deleted=$(cleanup_parent_dir ...)`) return a nonzero status on the
  first skip or first deletion without aborting anything; the sweep always
  runs to completion.
* `ls -A` lists hidden (dot-prefixed) entries, so a directory holding only
  dotfiles is non-empty for the pre-deletion recheck, and `rmdir` refuses
  to remove it.
* `cleanup_parent_dir` logs to stdout, so `deleted=$(cleanup_parent_dir …)`
  captures multi-line log text instead of a number, and the following
  `total_deleted=$((total_deleted + deleted))` is an arithmetic syntax
  error that aborts `main_cleanup` right after its first loop iteration
  (the shell itself keeps going and exits 0): the first pod directory is
  swept — the command substitution completes before the error — but later
  pod directories are never visited, and the empty-`PodIdentity` cleanup
  loop and the re-census are unreachable whenever at least one pod
  directory exists.
-/

namespace Fluid

/-- Decidable check that `pat` is a leading segment of `l` (bash literal
prefix match used by `${path#pattern}`). -/
def leadsWith : List Char → List Char → Bool
  | [], _ => true
  | _ :: _, [] => false
  | a :: as, b :: bs => a == b && leadsWith as bs

/-- Decidable check that `pat` is a trailing segment of `l` (the bash
regex test `[[ x =~ pat$ ]]` for a literal `pat`). -/
def trailsWith (pat l : List Char) : Bool :=
  leadsWith pat.reverse l.reverse

/-- Splitting of a character list at every occurrence of `sep`, keeping
empty fields; this is the shared core of bash field splitting and of the
anchored regular expressions of the script. -/
def splitOnChar (sep : Char) : List Char → List (List Char)
  | [] => [[]]
  | c :: cs =>
    if c = sep then [] :: splitOnChar sep cs
    else (c :: (splitOnChar sep cs).headI) :: (splitOnChar sep cs).tail

/-- Drop the single trailing empty field, as `IFS='/' read -ra` does for a
value ending in the separator. -/
def dropLastEmpty (l : List (List Char)) : List (List Char) :=
  if l.getLast? = some [] then l.dropLast else l

/-- Field splitting performed by `IFS='/' read -ra PARTS <<< "$rel_path"`. -/
def bashFields (s : List Char) : List (List Char) :=
  dropLastEmpty (splitOnChar '/' s)

/-- Bash `${path#${base_path}/}`: strip the literal `pre` when it leads
`s`, and return `s` unchanged otherwise. -/
def stripPre (pre s : List Char) : List Char :=
  if leadsWith pre s then s.drop pre.length else s

/-- Character class `[0-9]` of the script's timestamp regex. -/
def isDigitC (c : Char) : Bool := '0' ≤ c && c ≤ '9'

/-- Character class `[a-z0-9]` of the script's random-suffix regex. -/
def isLowerAlnumC (c : Char) : Bool := ('a' ≤ c && c ≤ 'z') || isDigitC c

/-- The anchored regex `^[0-9]+-[a-z0-9]+$` applied by
`validate_path_format` to the second path component: since neither class
contains `-`, a match is exactly a split into two nonempty halves around a
single `-`, the first all digits, the second all lowercase alphanumerics. -/
def matchTsRe (l : List Char) : Bool :=
  match splitOnChar '-' l with
  | [a, b] => !a.isEmpty && !b.isEmpty && a.all isDigitC && b.all isLowerAlnumC
  | _ => false

/-- Literal suffix required of the final component. -/
def fuseSuffix : List Char := "-fuse-mount".data

/-- Last element of a split-component list (`${PARTS[-1]}`), with `[]` for
an empty array. -/
def lastField (l : List (List Char)) : List Char :=
  (l.getLast?).getD []

/-- Relative remainder computed by `validate_path_format`:
`rel_path="${path#${base_path}/}"`. -/
def relRemainder (path base : String) : List Char :=
  stripPre (base.data ++ ['/']) path.data

/-- The script's `validate_path_format path base_path`: strip a leading
`base_path/`, split the remainder into `/`-separated fields, require at
least 3 fields, a second field matching `^[0-9]+-[a-z0-9]+$`, and a final
field ending in `-fuse-mount`. -/
def validate_path_format (path base : String) : Bool :=
  let parts := bashFields (relRemainder path base)
  if parts.length < 3 then false
  else matchTsRe (parts.getD 1 []) && trailsWith fuseSuffix (lastField parts)

/-- Decidable check that `pat` occurs contiguously inside `l`
(`grep -q` with a literal, glob-free pattern). -/
def hasSubList (pat : List Char) : List Char → Bool
  | [] => leadsWith pat []
  | c :: cs => leadsWith pat (c :: cs) || hasSubList pat cs

/-- Environment the script observes: the clock (`date +%s`), the two mount
tables (`none` models an unreadable file, for which `grep` silently
reports no match), and the `realpath` canonicalizer (`none` models a
failing `realpath`, after which the script falls back to the raw path). -/
structure Env where
  now : Nat
  mountinfo : Option (List String)
  mounts : Option (List String)
  realp : String → Option String

/-- One `grep -q " ${real_dir} " table` probe: an unreadable table yields
no match; a readable one matches when some line contains the path
surrounded by single spaces. -/
def tableHas (table : Option (List String)) (dir : String) : Bool :=
  match table with
  | none => false
  | some lines => lines.any fun l => hasSubList ((" " ++ dir ++ " ").data) l.data

/-- FUSE sentinel probe `find "$dir" -maxdepth 1 -name ".fuse_hidden*"`:
matches the directory's own basename or any immediate entry whose name
starts with `.fuse_hidden`. -/
def fuseHiddenIn (name : String) (entries : List String) : Bool :=
  leadsWith ".fuse_hidden".data name.data ||
    entries.any fun e => leadsWith ".fuse_hidden".data e.data

/-- The script's `is_mounted dir`: canonicalize via `realpath` (falling
back to the raw path on failure), probe `/proc/self/mountinfo` then
`/proc/mounts`, then look for a `.fuse_hidden*` sentinel; mounted when any
probe fires, not mounted otherwise. -/
def is_mounted (env : Env) (path name : String) (entries : List String) : Bool :=
  let real := (env.realp path).getD path
  tableHas env.mountinfo real || tableHas env.mounts real || fuseHiddenIn name entries

/-- The script's `get_dir_age_days`: `((current - mtime) / 86400)` in bash
arithmetic, i.e. C-style division truncating toward zero (negative for an
mtime more than a day in the future). -/
def get_dir_age_days (now mtime : Nat) : Int :=
  Int.tdiv ((now : Int) - (mtime : Int)) 86400

/-- The `rmdir` primitive: succeeds exactly on an empty directory. -/
def rmdirOk (entries : List String) : Bool := entries.isEmpty

/-- Outcome of one `safe_remove_dir` invocation. -/
inductive SrdResult
  | skippedMounted
  | skippedNonEmpty
  | reportedDry
  | removed
  | rmdirFailed
deriving DecidableEq

/-- The script's `safe_remove_dir dir` on a directory with the given
entry listing: re-probe the mount state, recheck emptiness with `ls -A`
(which lists hidden entries), then either report (`--dry-run`) or `rmdir`.
The bash function returns success exactly for `reportedDry` and
`removed`. -/
def safe_remove_dir (env : Env) (dryRun : Bool) (path name : String)
    (entries : List String) : SrdResult :=
  if is_mounted env path name entries then .skippedMounted
  else if entries.isEmpty = false then .skippedNonEmpty
  else if dryRun then .reportedDry
  else if rmdirOk entries then .removed
  else .rmdirFailed

/-- Leaf directory of the tree (depth 3 under the base directory): the
bind-mount target.  `entries` are the names of its immediate entries,
hidden ones included. -/
structure Leaf where
  name : String
  mtime : Nat
  entries : List String
deriving DecidableEq

/-- Depth-2 directory (the timestamp-random `AllocationID` level). -/
structure TsDir where
  name : String
  mtime : Nat
  files : List String
  subdirs : List Leaf
deriving DecidableEq

/-- Depth-1 directory (the `PodIdentity` level). -/
structure PodDir where
  name : String
  mtime : Nat
  files : List String
  subdirs : List TsDir
deriving DecidableEq

/-- The base directory's tree as the reclaimer observes it. -/
structure FS where
  pods : List PodDir
deriving DecidableEq

/-- Reclaimer configuration: `--base-dir`, `--threshold`, `--age-days`,
`--dry-run`. -/
structure Config where
  baseDir : String
  threshold : Nat
  ageDays : Nat
  dryRun : Bool
deriving DecidableEq

/-- Directory level of a deletion or dry-run report. -/
inductive DirKind
  | leaf
  | ts
  | pod
deriving DecidableEq

/-- The reason recorded for a skipped sweep candidate. -/
inductive SkipReason
  | badFormat
  | tooNew
  | mounted
  | nonEmpty
  | rmdirFail
deriving DecidableEq

/-- A performed deletion (real run) or `[DRY-RUN]` report, recording the
directory's path, basename, mtime and entry listing at that moment. -/
structure DelEv where
  kind : DirKind
  path : String
  name : String
  mtime : Nat
  entries : List String
deriving DecidableEq

/-- A counted skip (`((skipped_count++))`) of a sweep candidate. -/
structure SkipEv where
  path : String
  reason : SkipReason
deriving DecidableEq

/-- Aggregated observable output of a run: real deletions, dry-run
reports, and counted skips, each in chronological order. -/
structure Out where
  deleted : List DelEv
  reported : List DelEv
  skips : List SkipEv
deriving DecidableEq

def Out.nil : Out := ⟨[], [], []⟩

def Out.app (a b : Out) : Out :=
  ⟨a.deleted ++ b.deleted, a.reported ++ b.reported, a.skips ++ b.skips⟩

def leafPathStr (cfg : Config) (podName tsName leafName : String) : String :=
  cfg.baseDir ++ "/" ++ podName ++ "/" ++ tsName ++ "/" ++ leafName

def tsPathStr (cfg : Config) (podName tsName : String) : String :=
  cfg.baseDir ++ "/" ++ podName ++ "/" ++ tsName

/-- Gating decision for one sweep candidate. -/
inductive LeafDecision
  | skip (r : SkipReason)
  | reportIt
  | removeIt
deriving DecidableEq

/-- The per-candidate gate sequence of `cleanup_parent_dir`: format
validation against the base directory, age threshold, mount probe, then
`safe_remove_dir` (whose own mount re-probe and emptiness recheck produce
further skips). -/
def leafDecide (cfg : Config) (env : Env) (podName tsName : String) (l : Leaf) :
    LeafDecision :=
  let p := leafPathStr cfg podName tsName l.name
  if validate_path_format p cfg.baseDir = false then .skip .badFormat
  else if get_dir_age_days env.now l.mtime < (cfg.ageDays : Int) then .skip .tooNew
  else if is_mounted env p l.name l.entries then .skip .mounted
  else
    match safe_remove_dir env cfg.dryRun p l.name l.entries with
    | .skippedMounted => .skip .mounted
    | .skippedNonEmpty => .skip .nonEmpty
    | .rmdirFailed => .skip .rmdirFail
    | .reportedDry => .reportIt
    | .removed => .removeIt

/-- The parent-cleanup step run right after a successful
`safe_remove_dir` on a leaf: if the `AllocationID` directory's current
listing is empty, attempt an empty-only `safe_remove_dir` on it.  Returns
the emitted events and whether the directory was actually removed. -/
def tsAttempt (cfg : Config) (env : Env) (podName tsName : String) (tsMtime : Nat)
    (entries : List String) : Out × Bool :=
  if entries.isEmpty then
    match safe_remove_dir env cfg.dryRun (tsPathStr cfg podName tsName) tsName entries with
    | .removed => (⟨[⟨.ts, tsPathStr cfg podName tsName, tsName, tsMtime, entries⟩], [], []⟩, true)
    | .reportedDry =>
      (⟨[], [⟨.ts, tsPathStr cfg podName tsName, tsName, tsMtime, entries⟩], []⟩, false)
    | _ => (Out.nil, false)
  else (Out.nil, false)

/-- The candidate loop of `cleanup_parent_dir` over one `AllocationID`
directory's children, in `find` order.  `kept` accumulates the children
already passed over (skipped, merely reported, or not `*-fuse-mount`);
after a real leaf deletion the script immediately attempts an empty-only
removal of the `AllocationID` parent, whose current listing is
`files ++ kept ++ rest`.  Returns the surviving children, whether the
parent itself was removed, and the emitted events. -/
def sweepLeaves (cfg : Config) (env : Env) (podName tsName : String) (tsMtime : Nat)
    (tsFiles : List String) : List Leaf → List Leaf → List Leaf × Bool × Out
  | kept, [] => (kept, false, Out.nil)
  | kept, l :: rest =>
    if trailsWith fuseSuffix l.name.data = false then
      sweepLeaves cfg env podName tsName tsMtime tsFiles (kept ++ [l]) rest
    else
      let p := leafPathStr cfg podName tsName l.name
      match leafDecide cfg env podName tsName l with
      | .skip r =>
        let rec' := sweepLeaves cfg env podName tsName tsMtime tsFiles (kept ++ [l]) rest
        (rec'.1, rec'.2.1, Out.app ⟨[], [], [⟨p, r⟩]⟩ rec'.2.2)
      | .reportIt =>
        let tsOut := tsAttempt cfg env podName tsName tsMtime
          (tsFiles ++ (kept ++ l :: rest).map Leaf.name)
        let rec' := sweepLeaves cfg env podName tsName tsMtime tsFiles (kept ++ [l]) rest
        (rec'.1, tsOut.2 || rec'.2.1,
          Out.app (Out.app ⟨[], [⟨.leaf, p, l.name, l.mtime, l.entries⟩], []⟩ tsOut.1) rec'.2.2)
      | .removeIt =>
        let tsOut := tsAttempt cfg env podName tsName tsMtime
          (tsFiles ++ (kept ++ rest).map Leaf.name)
        let rec' := sweepLeaves cfg env podName tsName tsMtime tsFiles kept rest
        (rec'.1, tsOut.2 || rec'.2.1,
          Out.app (Out.app ⟨[⟨.leaf, p, l.name, l.mtime, l.entries⟩], [], []⟩ tsOut.1) rec'.2.2)

/-- Sweep every `AllocationID` directory of one `PodIdentity` directory in
`find` order, dropping the ones removed by the parent-cleanup step. -/
def sweepTsList (cfg : Config) (env : Env) (podName : String) :
    List TsDir → List TsDir × Out
  | [] => ([], Out.nil)
  | t :: rest =>
    let r := sweepLeaves cfg env podName t.name t.mtime t.files [] t.subdirs
    let r' := sweepTsList cfg env podName rest
    ((if r.2.1 then r'.1 else { t with subdirs := r.1 } :: r'.1), Out.app r.2.2 r'.2)

/-- The script's `cleanup_parent_dir pod_dir` (always invoked inside a
command substitution, where bash clears `set -e`, so it runs to
completion): sweep all depth-2 `*-fuse-mount` candidates below one
`PodIdentity` directory. -/
def cleanup_parent_dir (cfg : Config) (env : Env) (p : PodDir) : PodDir × Out :=
  let r := sweepTsList cfg env p.name p.subdirs
  ({ p with subdirs := r.1 }, r.2)

/-- The census of `main_cleanup`: total count of immediate subdirectories
(`find -mindepth 1 -maxdepth 1 -type d | wc -l`) over all `PodIdentity`
directories. -/
def totalSubdirsOf (fs : FS) : Nat :=
  (fs.pods.map fun p => p.subdirs.length).sum

/-- Result of one reclaimer run.  `aborted` records whether the
arithmetic-expansion error fired (see `main_cleanup` below): the script
itself still exits 0, but the rest of `main_cleanup` — later pod
directories, the `PodIdentity` cleanup loop, the re-census — never runs. -/
structure RunResult where
  pods : List PodDir
  out : Out
  totalSubdirs : Nat
  aborted : Bool
deriving DecidableEq

/-- The script's `main_cleanup`: census, threshold gate (strictly below
the threshold means no sweep at all), then the per-pod sweep loop.  The
loop body is `deleted=$(cleanup_parent_dir "$pod_dir")` followed by
`total_deleted=$((total_deleted + deleted))`.  Because the `log_info` and
`log_warn` lines of `cleanup_parent_dir` go to stdout, `deleted` captures
multi-line colored log text rather than a number, and the arithmetic
expansion is a syntax error that aborts the whole function right after
the first iteration (verified on bash 5.2: the first pod directory IS
swept, since the command substitution completes before the error, but
later pod directories are never visited and the empty-`PodIdentity`
cleanup loop and the re-census are unreachable; the script then exits 0).
With no pod directory at all the loop has no iteration, nothing errors,
and the function runs to its end doing nothing further. -/
def main_cleanup (cfg : Config) (env : Env) (fs : FS) : RunResult :=
  let total := totalSubdirsOf fs
  if total < cfg.threshold then ⟨fs.pods, Out.nil, total, false⟩
  else
    match fs.pods with
    | [] => ⟨[], Out.nil, total, false⟩
    | p :: rest =>
      let r := cleanup_parent_dir cfg env p
      ⟨r.1 :: rest, r.2, total, true⟩

/-! Concrete scenario used by witnesses and counterexamples: one pod
directory holding one correctly-formatted `AllocationID` directory whose
`mtime` is the current instant, holding one empty, unmounted, 100-day-old
leaf.  With threshold 1 and age threshold 90 a real run deletes the leaf,
then its freshly-modified parent; the pod directory itself survives (the
pod-cleanup phase is unreachable).  A second scenario adds a second pod
directory with its own eligible candidate, which the aborted run never
visits. -/

def exLeaf : Leaf := ⟨"data-fuse-mount", 0, []⟩

def exTs : TsDir := ⟨"1234567890123456-abcd1234", 8640000, [], [exLeaf]⟩

def exPod : PodDir := ⟨"p", 0, [], [exTs]⟩

def exFS : FS := ⟨[exPod]⟩

def exEnv : Env := ⟨8640000, some [], some [], fun _ => none⟩

def exCfg : Config := ⟨"/runtime-mnt", 1, 90, false⟩

def exLeafEv : DelEv :=
  ⟨.leaf, "/runtime-mnt/p/1234567890123456-abcd1234/data-fuse-mount", "data-fuse-mount", 0, []⟩

def exTsEv : DelEv :=
  ⟨.ts, "/runtime-mnt/p/1234567890123456-abcd1234", "1234567890123456-abcd1234", 8640000, []⟩

def exLeaf2 : Leaf := ⟨"other-fuse-mount", 0, []⟩

def exTs2 : TsDir := ⟨"6543210987654321-wxyz9876", 8640000, [], [exLeaf2]⟩

def exPod2 : PodDir := ⟨"q", 0, [], [exTs2]⟩

/-- Two pod directories, each holding one eligible candidate. -/
def exFS2 : FS := ⟨[exPod, exPod2]⟩

/-- Environment with both mount tables unreadable. -/
def noTablesEnv : Env := ⟨0, none, none, fun _ => none⟩

/-- Count of per-candidate outcomes: counted skips plus leaf deletions
plus leaf dry-run reports. -/
def Out.leafEvents (o : Out) : Nat :=
  (o.deleted.filter fun ev => ev.kind == DirKind.leaf).length +
    (o.reported.filter fun ev => ev.kind == DirKind.leaf).length + o.skips.length

/-- Number of sweep candidates (`find`-matched `*-fuse-mount` depth-2
directories) in one `AllocationID` directory. -/
def leafCandCountTs (t : TsDir) : Nat :=
  (t.subdirs.filter fun l => trailsWith fuseSuffix l.name.data).length

/-- Number of sweep candidates in the whole tree. -/
def leafCandCount (fs : FS) : Nat :=
  (fs.pods.map fun p => (p.subdirs.map leafCandCountTs).sum).sum

/-- Decimal digit character for a residue (`d % 10` is always passed). -/
def digitChar (d : Nat) : Char :=
  if d = 0 then '0' else if d = 1 then '1' else if d = 2 then '2' else if d = 3 then '3'
  else if d = 4 then '4' else if d = 5 then '5' else if d = 6 then '6' else if d = 7 then '7'
  else if d = 8 then '8' else '9'

/-- Little-endian decimal digits of `n`, with structural fuel (`fuel = n`
always suffices). -/
def decDigitsAux : Nat → Nat → List Char
  | 0, _ => []
  | _ + 1, 0 => []
  | fuel + 1, n + 1 => digitChar ((n + 1) % 10) :: decDigitsAux fuel ((n + 1) / 10)

/-- Standard decimal rendering of `n` (empty for `0`; the zero padding
below covers that case). -/
def decDigits (n : Nat) : List Char := (decDigitsAux n n).reverse

/-- Zero-pad the decimal rendering of `n` on the left to 16 characters,
per the 16-digit zero-padded timestamp of §3. -/
def zeroPad16 (n : Nat) : List Char :=
  List.replicate (16 - (decDigits n).length) '0' ++ decDigits n

/-- Modelled from the spec: the `AllocationID` segment of §3,
`<16-digit zero-padded nanosecond timestamp>-<8-character lowercase
alphanumeric random string>`, with the timestamp and the random string
supplied by the injected time and entropy sources. -/
def allocationID (t : Nat) (rand : String) : String :=
  ⟨zeroPad16 t ++ '-' :: rand.data⟩

/-- Trailing-separator stripping used on the legacy dataset path. -/
def dropTrailingSlashes (s : List Char) : List Char :=
  (s.reverse.dropWhile fun c => c = '/').reverse

/-- Modelled from the spec: `datasetName` is the final non-empty path
component of `legacyDatasetPath` after stripping trailing separators;
`none` models the `InvalidInputError` for an empty or root-only path. -/
def datasetNameOf (legacy : String) : Option String :=
  match (splitOnChar '/' (dropTrailingSlashes legacy.data)).getLast? with
  | none => none
  | some d => if d.isEmpty then none else some ⟨d⟩

/-- Modelled from the spec: `identitySegment = podName` if non-empty,
else `podGenerateName + "--generate-name"` (§4.1). -/
def identityOf (podName podGen : String) : String :=
  if podName = "" then podGen ++ "--generate-name" else podName

/-- Modelled from the spec: the PathAllocator operation
`Allocate(basePathPrefix, podName, podGenerateName, legacyDatasetPath)` of
§4.1.  The Go implementation (`generateUniqueHostPath` in the admission
webhook mutator) is not among the provided sources — only its unit test
is — so the function is defined from the spec's words: compute the
dataset name, the identity segment and a fresh `AllocationID`, and return
`join(basePathPrefix, identitySegment, AllocationID,
datasetName + "-fuse-mount")` together with the `AllocationID` segment.
Time `t` and randomness `rand` are the injected sources of §4.1/§9. -/
def Allocate (basePathPrefix podName podGen legacy : String) (t : Nat) (rand : String) :
    Option (String × String) :=
  match datasetNameOf legacy with
  | none => none
  | some ds =>
    some (basePathPrefix ++ "/" ++ identityOf podName podGen ++ "/" ++ allocationID t rand
        ++ "/" ++ (ds ++ "-fuse-mount"), allocationID t rand)

/-- Acceptor for the exact `AllocationID` grammar of §3: sixteen digits,
a dash, eight lowercase alphanumerics. -/
def allocId16x8 (l : List Char) : Bool :=
  match splitOnChar '-' l with
  | [a, b] => a.length == 16 && a.all isDigitC && b.length == 8 && b.all isLowerAlnumC
  | _ => false

/-- Acceptor for the full §3 grammar on split components: exactly three
components, a non-empty `PodIdentity`, an exact-shape `AllocationID`, and
a final component ending in `-fuse-mount`. -/
def specGrammar3 (parts : List (List Char)) : Bool :=
  match parts with
  | [i, a, lf] => !i.isEmpty && allocId16x8 a && trailsWith fuseSuffix lf
  | _ => false

example : bashFields "a/b/c".data = ["a".data, "b".data, "c".data] := by decide
example : bashFields "/a/b/c".data = [[], "a".data, "b".data, "c".data] := by decide
example : bashFields "a/b/".data = ["a".data, "b".data] := by decide
example : bashFields "a//".data = ["a".data, []] := by decide
example : bashFields "".data = [] := by decide
example : bashFields "/".data = [[]] := by decide
example : matchTsRe "123-abc".data = true := by decide
example : matchTsRe "123-a-b".data = false := by decide
example : matchTsRe "0123456789012345-ABCdef12".data = false := by decide
example : matchTsRe "1-a".data = true := by decide
example : trailsWith fuseSuffix "-fuse-mount".data = true := by decide
example : trailsWith fuseSuffix "xfuse-mount".data = false := by decide
example : validate_path_format "/base/pod/1-a/x-fuse-mount" "/base" = true := by decide
example : validate_path_format "/base/pod/0123456789012345-abcd1234/x-fuse-mount" "/base" = true := by
  decide
example : validate_path_format "/123-abc/foo/x-fuse-mount" "/base" = true := by decide
example : validate_path_format "/base/pod/123-abc/extra/x-fuse-mount" "/base" = true := by decide
example : validate_path_format "/base/pod/123-abc/x-fusemount" "/base" = false := by decide
example : validate_path_format "/base/pod/123-ABC/x-fuse-mount" "/base" = false := by decide
example : validate_path_format "/base/pod/123-abc" "/base" = false := by decide
example : validate_path_format "/other/pod/123-abc/x-fuse-mount" "/base" = false := by decide

example : (main_cleanup exCfg exEnv exFS).out.deleted = [exLeafEv, exTsEv] := by decide
example : (main_cleanup exCfg exEnv exFS).out.reported = [] := by decide
example : (main_cleanup exCfg exEnv exFS).out.skips = [] := by decide
example : (main_cleanup exCfg exEnv exFS).pods = [⟨"p", 0, [], []⟩] := by decide
example : (main_cleanup exCfg exEnv exFS).aborted = true := by decide
example : (main_cleanup exCfg exEnv exFS2).out.deleted = [exLeafEv, exTsEv] := by decide
example : (main_cleanup exCfg exEnv exFS2).pods = [⟨"p", 0, [], []⟩, exPod2] := by decide
example :
    (main_cleanup { exCfg with dryRun := true } exEnv exFS).out.reported = [exLeafEv] := by decide
example : (main_cleanup { exCfg with dryRun := true } exEnv exFS).out.deleted = [] := by decide
example : (main_cleanup { exCfg with dryRun := true } exEnv exFS).pods = [exPod] := by decide
example : (main_cleanup { exCfg with threshold := 5 } exEnv exFS).out = Out.nil := by decide

example : decDigits 123 = ['1', '2', '3'] := by decide
example : decDigits 0 = [] := by decide
example : zeroPad16 1700000000000000 = "1700000000000000".data := by decide
example : zeroPad16 42 = "0000000000000042".data := by decide
example :
    Allocate "/runtime-mnt/juicefs/default" "test" "" "/runtime-mnt/juicefs/default/jfsdemo"
        1700000000000000 "abcd1234" =
      some ("/runtime-mnt/juicefs/default/test/1700000000000000-abcd1234/jfsdemo-fuse-mount",
        "1700000000000000-abcd1234") := by decide
example : Allocate "/b" "" "test" "/d/" 1 "abcd1234" =
    some ("/b/test--generate-name/0000000000000001-abcd1234/d-fuse-mount",
      "0000000000000001-abcd1234") := by decide
example : Allocate "/b" "x" "" "///" 1 "abcd1234" = none := by decide
example : Allocate "/b" "x" "" "" 1 "abcd1234" = none := by decide

theorem leadsWith_refl_append (pre rest : List Char) : leadsWith pre (pre ++ rest) = true := by
  induction pre with
  | nil => rfl
  | cons a as ih => simp [leadsWith, ih]

theorem stripPre_of_append (pre rest : List Char) : stripPre pre (pre ++ rest) = rest := by
  simp [stripPre, leadsWith_refl_append]

theorem trailsWith_of_append (sfx x : List Char) : trailsWith sfx (x ++ sfx) = true := by
  simp [trailsWith, List.reverse_append, leadsWith_refl_append]

theorem splitOnChar_ne_nil (sep : Char) (l : List Char) : splitOnChar sep l ≠ [] := by
  induction l with
  | nil => simp [splitOnChar]
  | cons c cs ih => by_cases hc : c = sep <;> simp [splitOnChar, hc]

theorem splitOnChar_of_not_mem {sep : Char} {l : List Char} (h : sep ∉ l) :
    splitOnChar sep l = [l] := by
  induction l with
  | nil => rfl
  | cons c cs ih =>
    have h1 : ¬ c = sep := fun hh => h (by simp [hh])
    have h2 : sep ∉ cs := fun hh => h (List.mem_cons_of_mem c hh)
    simp [splitOnChar, h1, ih h2]

theorem splitOnChar_append_sep {sep : Char} {a : List Char} (ha : sep ∉ a) (b : List Char) :
    splitOnChar sep (a ++ sep :: b) = a :: splitOnChar sep b := by
  induction a with
  | nil => simp [splitOnChar]
  | cons c cs ih =>
    have h1 : ¬ c = sep := fun hh => ha (by simp [hh])
    have h2 : sep ∉ cs := fun hh => ha (List.mem_cons_of_mem c hh)
    simp [splitOnChar, h1, ih h2]

theorem splitOnChar_cons_sep (sep : Char) (cs : List Char) :
    splitOnChar sep (sep :: cs) = [] :: splitOnChar sep cs := by
  simp [splitOnChar]

theorem splitOnChar_cons_ne {sep c : Char} (hc : ¬ c = sep) (cs : List Char) :
    splitOnChar sep (c :: cs) =
      (c :: (splitOnChar sep cs).headI) :: (splitOnChar sep cs).tail := by
  simp [splitOnChar, hc]

theorem mem_splitOnChar_not_mem {sep : Char} {l x : List Char} (hx : x ∈ splitOnChar sep l) :
    sep ∉ x := by
  induction l generalizing x with
  | nil =>
    simp only [splitOnChar, List.mem_cons, List.not_mem_nil, or_false] at hx
    simp [hx]
  | cons c cs ih =>
    by_cases hc : c = sep
    · rw [hc, splitOnChar_cons_sep] at hx
      rcases List.mem_cons.mp hx with rfl | hx
      · simp
      · exact ih hx
    · rw [splitOnChar_cons_ne hc] at hx
      cases hsp : splitOnChar sep cs with
      | nil => exact absurd hsp (splitOnChar_ne_nil sep cs)
      | cons t ts =>
        rw [hsp] at hx
        simp only [List.headI, List.tail_cons, List.mem_cons] at hx
        rcases hx with rfl | hx
        · intro hm
          rcases List.mem_cons.mp hm with rfl | hm
          · exact hc rfl
          · exact ih (x := t) (by rw [hsp]; exact List.mem_cons_self t ts) hm
        · exact ih (by rw [hsp]; exact List.mem_cons_of_mem t hx)

theorem splitOnChar_eq_single {sep : Char} {l x : List Char} (h : splitOnChar sep l = [x]) :
    l = x ∧ sep ∉ x := by
  induction l generalizing x with
  | nil =>
    simp only [splitOnChar, List.cons.injEq, and_true] at h
    subst h
    simp
  | cons c cs ih =>
    by_cases hc : c = sep
    · rw [hc, splitOnChar_cons_sep] at h
      obtain ⟨-, h2⟩ := List.cons.injEq .. |>.mp h
      exact absurd h2 (splitOnChar_ne_nil sep cs)
    · rw [splitOnChar_cons_ne hc] at h
      cases hsp : splitOnChar sep cs with
      | nil => exact absurd hsp (splitOnChar_ne_nil sep cs)
      | cons t ts =>
        rw [hsp] at h
        simp only [List.headI, List.tail_cons, List.cons.injEq] at h
        obtain ⟨hx, hts⟩ := h
        subst hts
        obtain ⟨rfl, hnt⟩ := ih hsp
        refine ⟨hx, ?_⟩
        subst hx
        intro hm
        rcases List.mem_cons.mp hm with rfl | hm
        · exact hc rfl
        · exact hnt hm

theorem splitOnChar_eq_pair {sep : Char} {l a b : List Char} :
    splitOnChar sep l = [a, b] ↔ l = a ++ sep :: b ∧ sep ∉ a ∧ sep ∉ b := by
  constructor
  · intro h
    induction l generalizing a with
    | nil => simp [splitOnChar] at h
    | cons c cs ih =>
      by_cases hc : c = sep
      · rw [hc, splitOnChar_cons_sep] at h
        obtain ⟨h1, hcs⟩ := List.cons.injEq .. |>.mp h
        obtain ⟨rfl, hnb⟩ := splitOnChar_eq_single hcs
        exact ⟨by rw [hc, ← h1]; rfl, by rw [← h1]; simp, hnb⟩
      · rw [splitOnChar_cons_ne hc] at h
        cases hsp : splitOnChar sep cs with
        | nil => exact absurd hsp (splitOnChar_ne_nil sep cs)
        | cons t ts =>
          rw [hsp] at h
          simp only [List.headI, List.tail_cons, List.cons.injEq] at h
          obtain ⟨hx, hts⟩ := h
          subst hts
          obtain ⟨rfl, hna, hnb⟩ := ih hsp
          refine ⟨by rw [← hx]; rfl, ?_, hnb⟩
          subst hx
          intro hm
          rcases List.mem_cons.mp hm with rfl | hm
          · exact hc rfl
          · exact hna hm
  · rintro ⟨rfl, ha, hb⟩
    rw [splitOnChar_append_sep ha, splitOnChar_of_not_mem hb]

theorem digit_ne_slash {c : Char} (h : isDigitC c = true) : ¬ c = '/' := by
  intro hc
  subst hc
  exact absurd h (by decide)

theorem digit_ne_dash {c : Char} (h : isDigitC c = true) : ¬ c = '-' := by
  intro hc
  subst hc
  exact absurd h (by decide)

theorem lower_ne_slash {c : Char} (h : isLowerAlnumC c = true) : ¬ c = '/' := by
  intro hc
  subst hc
  exact absurd h (by decide)

theorem lower_ne_dash {c : Char} (h : isLowerAlnumC c = true) : ¬ c = '-' := by
  intro hc
  subst hc
  exact absurd h (by decide)

theorem isDigitC_digitChar (d : Nat) : isDigitC (digitChar d) = true := by
  unfold digitChar
  repeat' split
  all_goals decide

theorem decDigitsAux_all_digits (fuel n : Nat) :
    ∀ c ∈ decDigitsAux fuel n, isDigitC c = true := by
  induction fuel generalizing n with
  | zero => intro c hc; simp [decDigitsAux] at hc
  | succ fuel ih =>
    intro c hc
    cases n with
    | zero => simp [decDigitsAux] at hc
    | succ m =>
      simp only [decDigitsAux, List.mem_cons] at hc
      rcases hc with rfl | hc
      · exact isDigitC_digitChar _
      · exact ih _ c hc

theorem decDigits_all_digits (n : Nat) : ∀ c ∈ decDigits n, isDigitC c = true := by
  intro c hc
  rw [decDigits, List.mem_reverse] at hc
  exact decDigitsAux_all_digits n n c hc

theorem zeroPad16_all_digits (n : Nat) : ∀ c ∈ zeroPad16 n, isDigitC c = true := by
  intro c hc
  rw [zeroPad16, List.mem_append] at hc
  rcases hc with hc | hc
  · rw [List.eq_of_mem_replicate hc]
    decide
  · exact decDigits_all_digits n c hc

theorem decDigitsAux_len_le {k : Nat} :
    ∀ {fuel n : Nat}, n < 10 ^ k → (decDigitsAux fuel n).length ≤ k := by
  induction k with
  | zero =>
    intro fuel n hn
    interval_cases n
    cases fuel <;> simp [decDigitsAux]
  | succ k ih =>
    intro fuel n hn
    match fuel, n with
    | 0, _ => simp [decDigitsAux]
    | _ + 1, 0 => simp [decDigitsAux]
    | fuel + 1, m + 1 =>
      have hdiv : (m + 1) / 10 < 10 ^ k := by
        rw [Nat.div_lt_iff_lt_mul (by norm_num)]
        calc m + 1 < 10 ^ (k + 1) := hn
        _ = 10 ^ k * 10 := by rw [pow_succ]
      simpa [decDigitsAux] using ih hdiv

theorem decDigits_len_le {n k : Nat} (h : n < 10 ^ k) : (decDigits n).length ≤ k := by
  rw [decDigits, List.length_reverse]
  exact decDigitsAux_len_le h

theorem zeroPad16_length {n : Nat} (h : n < 10 ^ 16) : (zeroPad16 n).length = 16 := by
  have := decDigits_len_le h
  simp only [zeroPad16, List.length_append, List.length_replicate]
  omega

theorem matchTsRe_intro {a b : List Char} (ha : a ≠ []) (hb : b ≠ [])
    (hda : ∀ c ∈ a, isDigitC c = true) (hdb : ∀ c ∈ b, isLowerAlnumC c = true) :
    matchTsRe (a ++ '-' :: b) = true := by
  have hna : '-' ∉ a := fun hm => digit_ne_dash (hda _ hm) rfl
  have hnb : '-' ∉ b := fun hm => lower_ne_dash (hdb _ hm) rfl
  rw [matchTsRe, splitOnChar_append_sep hna, splitOnChar_of_not_mem hnb]
  simp [List.all_eq_true, ha, hb, List.isEmpty_iff]
  exact ⟨hda, hdb⟩

theorem allocId16x8_intro {a b : List Char} (hla : a.length = 16) (hlb : b.length = 8)
    (hda : ∀ c ∈ a, isDigitC c = true) (hdb : ∀ c ∈ b, isLowerAlnumC c = true) :
    allocId16x8 (a ++ '-' :: b) = true := by
  have hna : '-' ∉ a := fun hm => digit_ne_dash (hda _ hm) rfl
  have hnb : '-' ∉ b := fun hm => lower_ne_dash (hdb _ hm) rfl
  rw [allocId16x8, splitOnChar_append_sep hna, splitOnChar_of_not_mem hnb]
  simp [List.all_eq_true, hla, hlb]
  exact ⟨hda, hdb⟩

theorem data_build (base i a lf : String) :
    (base ++ "/" ++ i ++ "/" ++ a ++ "/" ++ lf).data
      = (base.data ++ ['/']) ++ (i.data ++ '/' :: (a.data ++ '/' :: lf.data)) := by
  simp [String.data_append, List.append_assoc]

theorem fields_of_triple (base i a lf : String)
    (hi : '/' ∉ i.data) (ha : '/' ∉ a.data) (hlf : '/' ∉ lf.data) (hne : lf.data ≠ []) :
    bashFields (relRemainder (base ++ "/" ++ i ++ "/" ++ a ++ "/" ++ lf) base) =
      [i.data, a.data, lf.data] := by
  rw [relRemainder, data_build]
  have hblit : (base ++ "/").data = base.data ++ ['/'] := by
    simp [String.data_append]
  rw [← hblit] at *
  rw [hblit, stripPre_of_append, bashFields, splitOnChar_append_sep hi,
    splitOnChar_append_sep ha, splitOnChar_of_not_mem hlf, dropLastEmpty]
  simp [hne]

theorem validate_of_triple (base i a lf : String)
    (hi : '/' ∉ i.data) (ha : '/' ∉ a.data) (hlf : '/' ∉ lf.data) (hne : lf.data ≠ [])
    (hts : matchTsRe a.data = true) (hsfx : trailsWith fuseSuffix lf.data = true) :
    validate_path_format (base ++ "/" ++ i ++ "/" ++ a ++ "/" ++ lf) base = true := by
  rw [validate_path_format, fields_of_triple base i a lf hi ha hlf hne]
  simp [lastField, hts, hsfx]

theorem eq_empty_of_data_nil {s : String} (h : s.data = []) : s = "" := by
  cases s with
  | mk d =>
    simp only [String.data] at h
    subst h
    rfl

theorem data_ne_nil_of_ne_empty {s : String} (h : s ≠ "") : s.data ≠ [] :=
  fun hd => h (eq_empty_of_data_nil hd)

theorem identityOf_no_slash {podName podGen : String} (hpn : '/' ∉ podName.data)
    (hpg : '/' ∉ podGen.data) : '/' ∉ (identityOf podName podGen).data := by
  rw [identityOf]
  split
  · rw [String.data_append]
    intro hm
    rcases List.mem_append.mp hm with hm | hm
    · exact hpg hm
    · exact absurd hm (by decide)
  · exact hpn

theorem identityOf_ne_nil (podName podGen : String) : (identityOf podName podGen).data ≠ [] := by
  rw [identityOf]
  split
  · rw [String.data_append]
    simp
  · next h => exact data_ne_nil_of_ne_empty h

theorem allocationID_data (t : Nat) (rand : String) :
    (allocationID t rand).data = zeroPad16 t ++ '-' :: rand.data := rfl

theorem allocationID_no_slash {rand : String} (t : Nat)
    (hrc : ∀ c ∈ rand.data, isLowerAlnumC c = true) :
    '/' ∉ (allocationID t rand).data := by
  rw [allocationID_data]
  intro hm
  rcases List.mem_append.mp hm with hm | hm
  · exact digit_ne_slash (zeroPad16_all_digits t _ hm) rfl
  · rcases List.mem_cons.mp hm with hm | hm
    · exact absurd hm (by decide)
    · exact lower_ne_slash (hrc _ hm) rfl

theorem datasetNameOf_no_slash {legacy ds : String} (h : datasetNameOf legacy = some ds) :
    '/' ∉ ds.data := by
  rw [datasetNameOf] at h
  split at h
  · exact absurd h (by simp)
  · rename_i d hg
    split at h
    · exact absurd h (by simp)
    · have hds : ds = ⟨d⟩ := (Option.some.injEq .. |>.mp h).symm
      subst hds
      exact mem_splitOnChar_not_mem (List.mem_of_mem_getLast? hg)

/-- C1: for every valid input (non-empty `podName` or `podGenerateName`,
slash-free identity inputs, a dataset path with a usable final component,
a 16-digit-representable timestamp and an 8-character lowercase
alphanumeric random string), the path returned by the spec-modelled
`Allocate`, decomposed relative to the base path, splits into exactly 3
components matching the §3 grammar (`PodIdentity` /
`<16-digit timestamp>-<8 lowercase alphanumerics>` /
`<datasetName>-fuse-mount`) and is accepted by `validate_path_format`
against that base path. -/
theorem c1_allocate_format_closure
    (base podName podGen legacy rand p aid : String) (t : Nat)
    (hval : podName ≠ "" ∨ podGen ≠ "")
    (hpn : '/' ∉ podName.data) (hpg : '/' ∉ podGen.data)
    (hr : rand.data.length = 8) (hrc : ∀ c ∈ rand.data, isLowerAlnumC c = true)
    (ht : t < 10 ^ 16)
    (halloc : Allocate base podName podGen legacy t rand = some (p, aid)) :
    validate_path_format p base = true ∧
      specGrammar3 (bashFields (relRemainder p base)) = true := by
  rw [Allocate] at halloc
  cases hds : datasetNameOf legacy with
  | none => rw [hds] at halloc; exact absurd halloc (by simp)
  | some ds =>
    rw [hds] at halloc
    simp only [Option.some.injEq, Prod.mk.injEq] at halloc
    obtain ⟨hp, -⟩ := halloc
    subst hp
    have hid_slash := identityOf_no_slash hpn hpg
    have hid_ne := identityOf_ne_nil podName podGen
    have haid_slash := allocationID_no_slash t hrc
    have hz16 := zeroPad16_length ht
    have hzd := zeroPad16_all_digits t
    have hzne : zeroPad16 t ≠ [] := by
      intro h0
      rw [h0] at hz16
      simp at hz16
    have hrne : rand.data ≠ [] := by
      intro h0
      rw [h0] at hr
      simp at hr
    have hlf_data : (ds ++ "-fuse-mount").data = ds.data ++ fuseSuffix :=
      String.data_append ds "-fuse-mount"
    have hlf_slash : '/' ∉ (ds ++ "-fuse-mount").data := by
      rw [hlf_data]
      intro hm
      rcases List.mem_append.mp hm with hm | hm
      · exact datasetNameOf_no_slash hds hm
      · exact absurd hm (by decide)
    have hlf_ne : (ds ++ "-fuse-mount").data ≠ [] := by
      rw [hlf_data]
      simp [fuseSuffix]
    have hlf_sfx : trailsWith fuseSuffix (ds ++ "-fuse-mount").data = true := by
      rw [hlf_data]
      exact trailsWith_of_append fuseSuffix ds.data
    have hts : matchTsRe (allocationID t rand).data = true := by
      rw [allocationID_data]
      exact matchTsRe_intro hzne hrne hzd hrc
    refine ⟨validate_of_triple base _ _ _ hid_slash haid_slash hlf_slash hlf_ne hts hlf_sfx, ?_⟩
    rw [fields_of_triple base _ _ _ hid_slash haid_slash hlf_slash hlf_ne]
    have h16x8 : allocId16x8 (allocationID t rand).data = true := by
      rw [allocationID_data]
      exact allocId16x8_intro hz16 hr hzd hrc
    have hIE : (identityOf podName podGen).data.isEmpty = false := by
      cases hl : (identityOf podName podGen).data with
      | nil => exact absurd hl hid_ne
      | cons x xs => rfl
    simp only [specGrammar3, hIE, h16x8, hlf_sfx]
    rfl

/-- Witness for C1 at the unit test's inputs: pod name `test`, dataset
path `/runtime-mnt/juicefs/default/jfsdemo`, a 16-digit timestamp and an
8-character lowercase alphanumeric random string. -/
theorem c1_allocate_format_closure_witness :
    validate_path_format
        "/runtime-mnt/juicefs/default/test/1700000000000000-abcd1234/jfsdemo-fuse-mount"
        "/runtime-mnt/juicefs/default" = true ∧
      specGrammar3 (bashFields (relRemainder
        "/runtime-mnt/juicefs/default/test/1700000000000000-abcd1234/jfsdemo-fuse-mount"
        "/runtime-mnt/juicefs/default")) = true :=
  c1_allocate_format_closure "/runtime-mnt/juicefs/default" "test" ""
    "/runtime-mnt/juicefs/default/jfsdemo" "abcd1234"
    "/runtime-mnt/juicefs/default/test/1700000000000000-abcd1234/jfsdemo-fuse-mount"
    "1700000000000000-abcd1234" 1700000000000000
    (Or.inl (by decide)) (by decide) (by decide) (by decide) (by decide) (by decide) (by decide)

/-- C4: whenever the census total of immediate `AllocationID`
subdirectories over all `PodIdentity` directories is strictly below the
configured threshold, the run emits no deletion, no report and no skip,
and leaves every directory in place. -/
theorem c4_threshold_gate (cfg : Config) (env : Env) (fs : FS)
    (h : totalSubdirsOf fs < cfg.threshold) :
    (main_cleanup cfg env fs).out = Out.nil ∧ (main_cleanup cfg env fs).pods = fs.pods := by
  rw [main_cleanup]
  simp [h]

/-- Witness for C4: the example state (1 subdirectory) under threshold 5,
where an age/mount/format-eligible directory exists. -/
theorem c4_threshold_gate_witness :
    totalSubdirsOf exFS < (5 : Nat) ∧
      ((main_cleanup { exCfg with threshold := 5 } exEnv exFS).out = Out.nil ∧
        (main_cleanup { exCfg with threshold := 5 } exEnv exFS).pods = exFS.pods) :=
  ⟨by decide, c4_threshold_gate { exCfg with threshold := 5 } exEnv exFS (by decide)⟩

/-- C6 counterexample: with no mount table readable (both `grep`s fail
silently) and no `.fuse_hidden` sentinel, `is_mounted` reports the
directory as NOT mounted — the code fails open here, contradicting the
claimed "assume mounted" behavior. -/
theorem c6_counterexample :
    noTablesEnv.mountinfo = none ∧ noTablesEnv.mounts = none ∧
      is_mounted noTablesEnv "/runtime-mnt/p/123-abc/x-fuse-mount" "x-fuse-mount" [] = false := by
  refine ⟨rfl, rfl, ?_⟩
  decide

/-- C6 amended: when no mount table is readable, `is_mounted` degrades to
exactly the `.fuse_hidden` sentinel probe: it reports mounted if and only
if the sentinel is present, and otherwise reports not mounted; it never
propagates an error. -/
theorem c6_amended_no_tables (env : Env) (p n : String) (e : List String)
    (h1 : env.mountinfo = none) (h2 : env.mounts = none) :
    is_mounted env p n e = fuseHiddenIn n e := by
  simp [is_mounted, tableHas, h1, h2]

/-- Witness for C6 amended: both tables unreadable and a `.fuse_hidden`
sentinel present. -/
theorem c6_amended_no_tables_witness :
    noTablesEnv.mountinfo = none ∧ noTablesEnv.mounts = none ∧
      is_mounted noTablesEnv "/runtime-mnt/p/123-abc/x-fuse-mount" "x-fuse-mount"
          [".fuse_hidden000001"] =
        fuseHiddenIn "x-fuse-mount" [".fuse_hidden000001"] :=
  ⟨rfl, rfl,
    c6_amended_no_tables noTablesEnv "/runtime-mnt/p/123-abc/x-fuse-mount" "x-fuse-mount"
      [".fuse_hidden000001"] rfl rfl⟩

/-- C7 counterexample: `validate_path_format` accepts a path whose
`AllocationID` component `1-a` has the wrong lengths (not 16 digits and
8 characters), and also accepts a path with four components below the
base; both violate "accepts exactly the §3 shape". -/
theorem c7_counterexample :
    validate_path_format "/base/pod/1-a/x-fuse-mount" "/base" = true ∧
      specGrammar3 (bashFields (relRemainder "/base/pod/1-a/x-fuse-mount" "/base")) = false ∧
      validate_path_format "/base/pod/123-abc/extra/x-fuse-mount" "/base" = true ∧
      specGrammar3 (bashFields (relRemainder "/base/pod/123-abc/extra/x-fuse-mount" "/base"))
        = false := by
  refine ⟨by decide, by decide, by decide, by decide⟩

theorem leadsWith_iff {p l : List Char} : leadsWith p l = true ↔ p <+: l := by
  induction p generalizing l with
  | nil => simp [leadsWith]
  | cons a as ih =>
    cases l with
    | nil => simp [leadsWith]
    | cons b bs =>
      rw [leadsWith, Bool.and_eq_true, beq_iff_eq, ih, List.cons_prefix_cons]

theorem trailsWith_iff {p l : List Char} : trailsWith p l = true ↔ p <:+ l := by
  rw [trailsWith, leadsWith_iff, List.reverse_prefix]

theorem matchTsRe_iff {l : List Char} :
    matchTsRe l = true ↔
      ∃ a b, l = a ++ '-' :: b ∧ a ≠ [] ∧ b ≠ [] ∧
        (∀ c ∈ a, isDigitC c = true) ∧ (∀ c ∈ b, isLowerAlnumC c = true) := by
  constructor
  · intro h
    rw [matchTsRe] at h
    cases hsp : splitOnChar '-' l with
    | nil => exact absurd hsp (splitOnChar_ne_nil '-' l)
    | cons t ts =>
      rw [hsp] at h
      match ts, h with
      | [b], h =>
        obtain ⟨hl, -, -⟩ := splitOnChar_eq_pair.mp hsp
        simp only [Bool.and_eq_true, Bool.not_eq_true', List.all_eq_true] at h
        obtain ⟨⟨⟨hte, hbe⟩, hta⟩, hba⟩ := h
        have ht : t ≠ [] := fun h0 => by rw [h0] at hte; exact absurd hte (by decide)
        have hb : b ≠ [] := fun h0 => by rw [h0] at hbe; exact absurd hbe (by decide)
        exact ⟨t, b, hl, ht, hb, hta, hba⟩
  · rintro ⟨a, b, rfl, ha, hb, hda, hdb⟩
    exact matchTsRe_intro ha hb hda hdb

/-- C7 amended: `validate_path_format` accepts exactly the candidates
whose remainder relative to the base (the whole candidate when `base/`
does not lead it) splits into at least 3 fields whose second field
matches `^[0-9]+-[a-z0-9]+$` — any nonzero digit/suffix lengths, with
rejection of uppercase — and whose final field ends in `-fuse-mount`; the
16/8 length constraints and the exactly-3-component count of §3 are not
enforced. -/
theorem c7_amended_validate_iff (p b : String) :
    validate_path_format p b = true ↔
      3 ≤ (bashFields (relRemainder p b)).length ∧
        (∃ x y, (bashFields (relRemainder p b)).getD 1 [] = x ++ '-' :: y ∧ x ≠ [] ∧ y ≠ [] ∧
          (∀ c ∈ x, isDigitC c = true) ∧ (∀ c ∈ y, isLowerAlnumC c = true)) ∧
        fuseSuffix <:+ lastField (bashFields (relRemainder p b)) := by
  rw [validate_path_format]
  by_cases hlen : (bashFields (relRemainder p b)).length < 3
  · simp only [if_pos hlen]
    constructor
    · intro h
      exact absurd h (by simp)
    · rintro ⟨h3, -⟩
      omega
  · simp only [if_neg hlen, Bool.and_eq_true, matchTsRe_iff, trailsWith_iff]
    constructor
    · rintro ⟨hm, hs⟩
      exact ⟨by omega, hm, hs⟩
    · rintro ⟨-, hm, hs⟩
      exact ⟨hm, hs⟩

/-- C8 counterexample: a candidate that does not lie below the base path
(`/base/` does not lead it) is nevertheless accepted, because the prefix
stripping leaves the whole candidate and its own components happen to
satisfy the field rules. -/
theorem c8_counterexample :
    leadsWith ("/base".data ++ ['/']) "/123-abc/foo/x-fuse-mount".data = false ∧
      validate_path_format "/123-abc/foo/x-fuse-mount" "/base" = true := by
  refine ⟨by decide, by decide⟩

/-- C8 amended: `Validate` performs no containment check: when
`basePath/` does not lead the candidate, the entire candidate becomes the
remainder, and acceptance is decided by the candidate's own split fields
(at least 3 fields, second matching the `AllocationID` pattern, last
ending in `-fuse-mount`). -/
theorem c8_amended_no_containment (p b : String)
    (h : leadsWith (b.data ++ ['/']) p.data = false) :
    relRemainder p b = p.data ∧
      validate_path_format p b =
        (decide (3 ≤ (bashFields p.data).length) &&
          matchTsRe ((bashFields p.data).getD 1 []) &&
          trailsWith fuseSuffix (lastField (bashFields p.data))) := by
  have hrel : relRemainder p b = p.data := by
    rw [relRemainder, stripPre, if_neg (by simp [h])]
  refine ⟨hrel, ?_⟩
  rw [validate_path_format, hrel]
  by_cases hlen : (bashFields p.data).length < 3
  · simp [hlen, Nat.not_le.mpr hlen]
  · simp only [if_neg hlen]
    rw [decide_eq_true (by omega)]
    simp

/-- Witness for C8 amended, at the counterexample's non-contained input. -/
theorem c8_amended_no_containment_witness :
    leadsWith ("/base".data ++ ['/']) "/123-abc/foo/x-fuse-mount".data = false ∧
      (relRemainder "/123-abc/foo/x-fuse-mount" "/base" = "/123-abc/foo/x-fuse-mount".data ∧
        validate_path_format "/123-abc/foo/x-fuse-mount" "/base" =
          (decide (3 ≤ (bashFields "/123-abc/foo/x-fuse-mount".data).length) &&
            matchTsRe ((bashFields "/123-abc/foo/x-fuse-mount".data).getD 1 []) &&
            trailsWith fuseSuffix (lastField (bashFields "/123-abc/foo/x-fuse-mount".data)))) :=
  ⟨by decide, c8_amended_no_containment "/123-abc/foo/x-fuse-mount" "/base" (by decide)⟩

/-- C10: a directory whose entries are all hidden (dot-prefixed, such as
a FUSE `.fuse_hidden` sentinel) is non-empty for the `ls -A` recheck, so
`safe_remove_dir` always skips it (as mounted or as non-empty) — it never
removes it and never even reports it in dry-run — and the `rmdir`
primitive fails on it. -/
theorem c10_hidden_entries_block_removal (env : Env) (dry : Bool) (p n : String)
    (entries : List String) (hne : entries ≠ [])
    (hh : ∀ e ∈ entries, leadsWith ['.'] e.data = true) :
    (safe_remove_dir env dry p n entries = .skippedMounted ∨
      safe_remove_dir env dry p n entries = .skippedNonEmpty) ∧
      rmdirOk entries = false := by
  have hie : entries.isEmpty = false := by
    cases entries with
    | nil => exact absurd rfl hne
    | cons e es => rfl
  constructor
  · rw [safe_remove_dir]
    by_cases hm : is_mounted env p n entries
    · rw [if_pos hm]
      exact Or.inl rfl
    · rw [if_neg hm, if_pos (by rw [hie])]
      exact Or.inr rfl
  · rw [rmdirOk, hie]

theorem safe_remove_dir_eq (env : Env) (dry : Bool) (p n : String) (e : List String) :
    safe_remove_dir env dry p n e =
      if is_mounted env p n e then .skippedMounted
      else if e.isEmpty = false then .skippedNonEmpty
      else if dry then .reportedDry
      else .removed := by
  rw [safe_remove_dir]
  split_ifs with h1 h2 h3 h4 <;> try rfl
  exact absurd (by simpa [rmdirOk] using h2) h4

theorem srd_removed {env : Env} {dry : Bool} {p n : String} {e : List String}
    (h : safe_remove_dir env dry p n e = .removed) :
    is_mounted env p n e = false ∧ e = [] ∧ dry = false := by
  rw [safe_remove_dir_eq] at h
  split_ifs at h with h1 h2 h3 <;> simp_all

theorem srd_reported {env : Env} {dry : Bool} {p n : String} {e : List String}
    (h : safe_remove_dir env dry p n e = .reportedDry) :
    is_mounted env p n e = false ∧ e = [] ∧ dry = true := by
  rw [safe_remove_dir_eq] at h
  split_ifs at h with h1 h2 h3 <;> simp_all

theorem leafDecide_removeIt {cfg : Config} {env : Env} {pN tsN : String} {l : Leaf}
    (h : leafDecide cfg env pN tsN l = .removeIt) :
    validate_path_format (leafPathStr cfg pN tsN l.name) cfg.baseDir = true ∧
      (cfg.ageDays : Int) ≤ get_dir_age_days env.now l.mtime ∧
      is_mounted env (leafPathStr cfg pN tsN l.name) l.name l.entries = false ∧
      l.entries = [] ∧ cfg.dryRun = false := by
  rw [leafDecide] at h
  split_ifs at h with h1 h2 h3
  rcases hsr : safe_remove_dir env cfg.dryRun (leafPathStr cfg pN tsN l.name) l.name l.entries
    with _ | _ | _ | _ | _ <;> rw [hsr] at h <;> simp at h
  obtain ⟨hm, he, hd⟩ := srd_removed hsr
  exact ⟨by simpa using h1, by omega, hm, he, hd⟩

theorem leafDecide_reportIt {cfg : Config} {env : Env} {pN tsN : String} {l : Leaf}
    (h : leafDecide cfg env pN tsN l = .reportIt) :
    validate_path_format (leafPathStr cfg pN tsN l.name) cfg.baseDir = true ∧
      (cfg.ageDays : Int) ≤ get_dir_age_days env.now l.mtime ∧
      is_mounted env (leafPathStr cfg pN tsN l.name) l.name l.entries = false ∧
      l.entries = [] ∧ cfg.dryRun = true := by
  rw [leafDecide] at h
  split_ifs at h with h1 h2 h3
  rcases hsr : safe_remove_dir env cfg.dryRun (leafPathStr cfg pN tsN l.name) l.name l.entries
    with _ | _ | _ | _ | _ <;> rw [hsr] at h <;> simp at h
  obtain ⟨hm, he, hd⟩ := srd_reported hsr
  exact ⟨by simpa using h1, by omega, hm, he, hd⟩

theorem isEmpty_false_of_ne_nil {α : Type} {l : List α} (h : l ≠ []) : l.isEmpty = false := by
  cases l with
  | nil => exact absurd rfl h
  | cons x xs => rfl

theorem Out.app_deleted (a b : Out) : (Out.app a b).deleted = a.deleted ++ b.deleted := rfl

theorem Out.app_reported (a b : Out) : (Out.app a b).reported = a.reported ++ b.reported := rfl

theorem Out.app_skips (a b : Out) : (Out.app a b).skips = a.skips ++ b.skips := rfl

theorem tsAttempt_deleted_sound {cfg : Config} {env : Env} {pN tsN : String} {tsM : Nat}
    {entries : List String} {ev : DelEv}
    (h : ev ∈ (tsAttempt cfg env pN tsN tsM entries).1.deleted) :
    ev.kind = DirKind.ts ∧ is_mounted env ev.path ev.name ev.entries = false ∧
      ev.entries = [] := by
  rw [tsAttempt] at h
  split at h
  · rcases hsr : safe_remove_dir env cfg.dryRun (tsPathStr cfg pN tsN) tsN entries
      with _ | _ | _ | _ | _ <;> rw [hsr] at h <;> simp [Out.nil] at h
    subst h
    obtain ⟨hm, he, -⟩ := srd_removed hsr
    exact ⟨rfl, hm, he⟩
  · simp [Out.nil] at h

theorem tsAttempt_reported_sound {cfg : Config} {env : Env} {pN tsN : String} {tsM : Nat}
    {entries : List String} {ev : DelEv}
    (h : ev ∈ (tsAttempt cfg env pN tsN tsM entries).1.reported) :
    ev.kind = DirKind.ts := by
  rw [tsAttempt] at h
  split at h
  · rcases hsr : safe_remove_dir env cfg.dryRun (tsPathStr cfg pN tsN) tsN entries
      with _ | _ | _ | _ | _ <;> rw [hsr] at h <;> simp [Out.nil] at h
    subst h
    rfl
  · simp [Out.nil] at h

/-- Every deletion the sweep loop performs happened on a directory whose
mount probe answered "not mounted" and whose final recheck listing was
empty; every deleted leaf had passed the age gate, and only leaf and
`AllocationID` directories are ever deleted here. -/
theorem sweepLeaves_deleted_sound (cfg : Config) (env : Env) (pN tsN : String) (tsM : Nat)
    (tsF : List String) :
    ∀ (pending kept : List Leaf) {ev : DelEv},
      ev ∈ (sweepLeaves cfg env pN tsN tsM tsF kept pending).2.2.deleted →
      is_mounted env ev.path ev.name ev.entries = false ∧ ev.entries = [] ∧
        (ev.kind = DirKind.leaf → (cfg.ageDays : Int) ≤ get_dir_age_days env.now ev.mtime) ∧
        ev.kind ≠ DirKind.pod := by
  intro pending
  induction pending with
  | nil =>
    intro kept ev hev
    simp [sweepLeaves, Out.nil] at hev
  | cons l rest ih =>
    intro kept ev hev
    rw [sweepLeaves] at hev
    split at hev
    · exact ih _ hev
    · rcases hdec : leafDecide cfg env pN tsN l with r | _ | _ <;> rw [hdec] at hev <;>
        simp only [Out.app_deleted, List.mem_append, List.not_mem_nil, false_or, or_false,
          List.mem_singleton, List.mem_cons, or_assoc] at hev
      · exact ih _ hev
      · rcases hev with hev | hev
        · obtain ⟨hk, hm, he⟩ := tsAttempt_deleted_sound hev
          exact ⟨hm, he, fun hlf => by rw [hk] at hlf; exact absurd hlf (by simp),
            by rw [hk]; decide⟩
        · exact ih _ hev
      · rcases hev with hev | hev | hev
        · obtain ⟨-, hage, hm, he, -⟩ := leafDecide_removeIt hdec
          subst hev
          exact ⟨hm, he, fun _ => hage, by simp⟩
        · obtain ⟨hk, hm, he⟩ := tsAttempt_deleted_sound hev
          exact ⟨hm, he, fun hlf => by rw [hk] at hlf; exact absurd hlf (by simp),
            by rw [hk]; decide⟩
        · exact ih _ hev

theorem sweepTsList_deleted_sound (cfg : Config) (env : Env) (pN : String) :
    ∀ (l : List TsDir) {ev : DelEv}, ev ∈ (sweepTsList cfg env pN l).2.deleted →
      is_mounted env ev.path ev.name ev.entries = false ∧ ev.entries = [] ∧
        (ev.kind = DirKind.leaf → (cfg.ageDays : Int) ≤ get_dir_age_days env.now ev.mtime) ∧
        ev.kind ≠ DirKind.pod := by
  intro l
  induction l with
  | nil =>
    intro ev hev
    simp [sweepTsList, Out.nil] at hev
  | cons t rest ih =>
    intro ev hev
    rw [sweepTsList] at hev
    simp only [Out.app_deleted, List.mem_append] at hev
    rcases hev with hev | hev
    · exact sweepLeaves_deleted_sound cfg env pN t.name t.mtime t.files t.subdirs [] hev
    · exact ih hev

/-- Every deletion of a full run was performed on a directory that the
mount probe reported unmounted and whose final recheck listing was empty;
deleted leaves additionally passed the age gate, and `PodIdentity`
directories are never deleted (only the first pod directory is swept
before the captured-log arithmetic error aborts `main_cleanup`, and the
pod-cleanup loop is unreachable). -/
theorem main_cleanup_deleted_sound (cfg : Config) (env : Env) (fs : FS) {ev : DelEv}
    (hev : ev ∈ (main_cleanup cfg env fs).out.deleted) :
    is_mounted env ev.path ev.name ev.entries = false ∧ ev.entries = [] ∧
      (ev.kind = DirKind.leaf → (cfg.ageDays : Int) ≤ get_dir_age_days env.now ev.mtime) ∧
      ev.kind ≠ DirKind.pod := by
  rw [main_cleanup] at hev
  split at hev
  · simp [Out.nil] at hev
  · cases hpods : fs.pods with
    | nil =>
      rw [hpods] at hev
      simp [Out.nil] at hev
    | cons p rest =>
      rw [hpods] at hev
      simp only [cleanup_parent_dir] at hev
      exact sweepTsList_deleted_sound cfg env p.name p.subdirs hev

/-- C2: the reclaimer never deletes a directory that `is_mounted` reports
mounted, never deletes one whose final pre-deletion recheck found it
non-empty, and the `rmdir` primitive itself only ever succeeds on an
empty directory. -/
theorem c2_no_mounted_or_nonempty_deletion (cfg : Config) (env : Env) (fs : FS) (ev : DelEv)
    (hev : ev ∈ (main_cleanup cfg env fs).out.deleted) :
    is_mounted env ev.path ev.name ev.entries = false ∧ ev.entries = [] ∧
      ∀ entries : List String, rmdirOk entries = true → entries = [] := by
  obtain ⟨hm, he, -, -⟩ := main_cleanup_deleted_sound cfg env fs hev
  refine ⟨hm, he, fun entries hr => ?_⟩
  rw [rmdirOk] at hr
  exact List.isEmpty_iff.mp hr

/-- Witness for C2 at the example run's leaf deletion. -/
theorem c2_no_mounted_or_nonempty_deletion_witness :
    exLeafEv ∈ (main_cleanup exCfg exEnv exFS).out.deleted ∧
      (is_mounted exEnv exLeafEv.path exLeafEv.name exLeafEv.entries = false ∧
        exLeafEv.entries = [] ∧
        ∀ entries : List String, rmdirOk entries = true → entries = []) :=
  ⟨by decide, c2_no_mounted_or_nonempty_deletion exCfg exEnv exFS exLeafEv (by decide)⟩

/-- C3 counterexample: in the example run the freshly-modified
`AllocationID` parent directory (age 0 days, far below the 90-day
threshold) is deleted right after its old leaf, because the parent
cleanup step applies no age gate. -/
theorem c3_counterexample :
    exTsEv ∈ (main_cleanup exCfg exEnv exFS).out.deleted ∧
      get_dir_age_days exEnv.now exTsEv.mtime < (exCfg.ageDays : Int) := by
  refine ⟨by decide, by decide⟩

/-- C3 amended: no LEAF directory younger than the configured age
threshold is ever deleted; the `AllocationID` parent directory, however,
is removed once empty with no age check, and `PodIdentity` directories
are never deleted at all (the pod-cleanup phase is unreachable: the
captured-log arithmetic error aborts `main_cleanup` first). -/
theorem c3_amended_leaf_age_gate (cfg : Config) (env : Env) (fs : FS) (ev : DelEv)
    (hev : ev ∈ (main_cleanup cfg env fs).out.deleted) :
    (ev.kind = DirKind.leaf → (cfg.ageDays : Int) ≤ get_dir_age_days env.now ev.mtime) ∧
      ev.kind ≠ DirKind.pod :=
  ⟨(main_cleanup_deleted_sound cfg env fs hev).2.2.1,
    (main_cleanup_deleted_sound cfg env fs hev).2.2.2⟩

/-- Witness for C3 amended at the example run's leaf deletion. -/
theorem c3_amended_leaf_age_gate_witness :
    exLeafEv ∈ (main_cleanup exCfg exEnv exFS).out.deleted ∧
      ((exLeafEv.kind = DirKind.leaf →
          (exCfg.ageDays : Int) ≤ get_dir_age_days exEnv.now exLeafEv.mtime) ∧
        exLeafEv.kind ≠ DirKind.pod) :=
  ⟨by decide, c3_amended_leaf_age_gate exCfg exEnv exFS exLeafEv (by decide)⟩

theorem Out.leafEvents_app (a b : Out) :
    (Out.app a b).leafEvents = a.leafEvents + b.leafEvents := by
  simp only [Out.leafEvents, Out.app_deleted, Out.app_reported, Out.app_skips,
    List.filter_append, List.length_append]
  omega

theorem Out.leafEvents_nil : Out.nil.leafEvents = 0 := rfl

theorem tsAttempt_leafEvents (cfg : Config) (env : Env) (pN tsN : String) (tsM : Nat)
    (entries : List String) : (tsAttempt cfg env pN tsN tsM entries).1.leafEvents = 0 := by
  rw [tsAttempt]
  split
  · rcases safe_remove_dir env cfg.dryRun (tsPathStr cfg pN tsN) tsN entries
      with _ | _ | _ | _ | _ <;> simp [Out.leafEvents, Out.nil]
  · simp [Out.leafEvents, Out.nil]

theorem leafEvents_skipLit (p : String) (r : SkipReason) :
    (⟨[], [], [⟨p, r⟩]⟩ : Out).leafEvents = 1 := by
  simp [Out.leafEvents]

theorem leafEvents_delLeafLit (p n : String) (m : Nat) (e : List String) :
    (⟨[⟨DirKind.leaf, p, n, m, e⟩], [], []⟩ : Out).leafEvents = 1 := by
  simp [Out.leafEvents]

theorem leafEvents_repLeafLit (p n : String) (m : Nat) (e : List String) :
    (⟨[], [⟨DirKind.leaf, p, n, m, e⟩], []⟩ : Out).leafEvents = 1 := by
  simp [Out.leafEvents]

/-- Every sweep candidate produces exactly one counted outcome (a skip,
a deletion, or a dry-run report): no skip interrupts the loop. -/
theorem sweepLeaves_leafEvents (cfg : Config) (env : Env) (pN tsN : String) (tsM : Nat)
    (tsF : List String) :
    ∀ (pending kept : List Leaf),
      (sweepLeaves cfg env pN tsN tsM tsF kept pending).2.2.leafEvents =
        (pending.filter fun l => trailsWith fuseSuffix l.name.data).length := by
  intro pending
  induction pending with
  | nil =>
    intro kept
    simp [sweepLeaves, Out.leafEvents_nil]
  | cons l rest ih =>
    intro kept
    rw [sweepLeaves]
    split
    · rename_i hn
      rw [ih, List.filter_cons_of_neg (by simp [hn])]
    · rename_i hn
      have hpos : trailsWith fuseSuffix l.name.data = true := by
        simpa using hn
      rcases hdec : leafDecide cfg env pN tsN l with r | _ | _ <;>
        simp only [Out.leafEvents_app, tsAttempt_leafEvents, leafEvents_skipLit,
          leafEvents_delLeafLit, leafEvents_repLeafLit, ih, List.filter_cons, hpos,
          if_true, List.length_cons] <;> omega

theorem sweepTsList_leafEvents (cfg : Config) (env : Env) (pN : String) :
    ∀ ts : List TsDir,
      (sweepTsList cfg env pN ts).2.leafEvents = (ts.map leafCandCountTs).sum := by
  intro ts
  induction ts with
  | nil => simp [sweepTsList, Out.leafEvents_nil]
  | cons t rest ih =>
    rw [sweepTsList]
    simp only [Out.leafEvents_app, ih, List.map_cons, List.sum_cons]
    rw [sweepLeaves_leafEvents]
    rfl

/-- C9 (code bug): the claim — skips are only counted and the run
continues to the remaining candidates and terminates normally — matches
the script's evident intent (`cleanup_parent_dir` ends with
`echo "$deleted_count"` precisely so its caller can capture a number, and
the summary and re-census code after the loop assume the sweep finished),
but the code aborts instead: on a state with two pod directories holding
two eligible candidates, the threshold gate passes, yet only one
candidate ever produces a counted outcome — the captured-log arithmetic
error ends `main_cleanup` after the first pod directory, leaving the
second pod directory untouched with its candidate unexamined. -/
theorem c9_abort_after_first_pod :
    exCfg.threshold ≤ totalSubdirsOf exFS2 ∧
      leafCandCount exFS2 = 2 ∧
      (main_cleanup exCfg exEnv exFS2).out.leafEvents = 1 ∧
      (main_cleanup exCfg exEnv exFS2).aborted = true ∧
      (main_cleanup exCfg exEnv exFS2).pods = [⟨"p", 0, [], []⟩, exPod2] := by
  refine ⟨by decide, by decide, by decide, by decide, by decide⟩

theorem tsPathStr_dry (cfg : Config) (b : Bool) (pN tsN : String) :
    tsPathStr { cfg with dryRun := b } pN tsN = tsPathStr cfg pN tsN := rfl

/-- Witness for C10: a directory holding only a `.fuse_hidden` sentinel. -/
theorem c10_hidden_entries_block_removal_witness :
    ([".fuse_hidden000001"] ≠ ([] : List String)) ∧
      ((safe_remove_dir exEnv false "/runtime-mnt/p/123-abc/x-fuse-mount" "x-fuse-mount"
            [".fuse_hidden000001"] = .skippedMounted ∨
          safe_remove_dir exEnv false "/runtime-mnt/p/123-abc/x-fuse-mount" "x-fuse-mount"
            [".fuse_hidden000001"] = .skippedNonEmpty) ∧
        rmdirOk [".fuse_hidden000001"] = false) :=
  ⟨by decide,
    c10_hidden_entries_block_removal exEnv false "/runtime-mnt/p/123-abc/x-fuse-mount"
      "x-fuse-mount" [".fuse_hidden000001"] (by decide) (by decide)⟩

end Fluid
